import Mathlib

/-!
Verification of the `str` string library (`src/str.h`).

The library's value type is a two-word struct: a byte pointer `ptr` and a
packed word `info` holding the length shifted left by one bit with the
ownership flag in the low bit (`str_ref_info`, `str_owner_info`).  We embed
it shallowly: addresses are natural numbers (0 is NULL), `info` is a natural
number taken modulo 2^64 where the C code can overflow, memory is a function
from addresses to bytes, and the allocator's state is the list of currently
allocated block addresses.  Functions whose bodies live in the header are
translated directly; functions whose bodies are in the (absent) `str.c` are
modelled from the specification and are marked as such in their doc comments.
-/

namespace StrLib

/-- `size_t` modulus: the code targets a 64-bit `size_t`. -/
def WORD : Nat := 2 ^ 64

/-- The `str` struct from `src/str.h`: `{ const char* ptr; size_t info; }`.
`ptr` is an address (0 encodes NULL); `info` packs length and ownership. -/
structure str where
  ptr : Nat
  info : Nat
  deriving Repr, DecidableEq

/-- `#define str_null ((str){ 0, 0 })` -/
def str_null : str := ⟨0, 0⟩

/-- `#define str_ref_info(n) ((n) << 1)` with `size_t` wraparound. -/
def str_ref_info (n : Nat) : Nat := (n <<< 1) % WORD

/-- `#define str_owner_info(n) (str_ref_info(n) | 1)` -/
def str_owner_info (n : Nat) : Nat := str_ref_info n ||| 1

/-- `size_t str_len(const str s) { return s.info >> 1; }` -/
def str_len (s : str) : Nat := s.info >>> 1

/-- Modelled from the spec: the canonical shared empty-string constant
`str_empty_string` is defined in the missing `str.c`; the spec only requires
it to be a fixed, non-null address of an immutable empty string.  We model it
as the fixed non-null address 1. -/
def str_empty_string : Nat := 1

/-- `const char* str_ptr(const str s) { return s.ptr ? s.ptr : str_empty_string; }` -/
def str_ptr (s : str) : Nat := if s.ptr ≠ 0 then s.ptr else str_empty_string

/-- `bool str_is_empty(const str s) { return str_len(s) == 0; }` -/
def str_is_empty (s : str) : Bool := str_len s == 0

/-- `bool str_is_owner(const str s) { return (s.info & 1) != 0; }` -/
def str_is_owner (s : str) : Bool := s.info &&& 1 != 0

/-- `bool str_is_ref(const str s) { return !str_is_owner(s); }` -/
def str_is_ref (s : str) : Bool := !str_is_owner s

/-- The logical content of a string: `str_len s` bytes of memory starting at
`str_ptr s`.  `mem` is the byte memory. -/
def str_content (mem : Nat → Nat) (s : str) : List Nat :=
  (List.range (str_len s)).map fun i => mem (str_ptr s + i)

/-- Modelled from the spec: `str_free` (declared in the header, defined in the
missing `str.c`): "frees the buffer if owning; no-op otherwise".  The
allocator state is the list of allocated block addresses; freeing removes the
block at `s.ptr` from it. -/
def str_free (s : str) (heap : List Nat) : List Nat :=
  if str_is_owner s then heap.erase s.ptr else heap

/-- `void str_assign(str* const ps, const str s) { str_free(*ps); *ps = s; }`
State-passing form: given the current value of `*ps` and the allocator state,
returns the new value of `*ps` and the new allocator state. -/
def str_assign (ps : str) (heap : List Nat) (s : str) : str × List Nat :=
  (s, str_free ps heap)

/-- `str str_move(str* const ps) { const str t = *ps; *ps = str_null; return t; }`
Returns `(returned value, new value of *ps)`. -/
def str_move (ps : str) : str × str := (ps, str_null)

/-- `str str_pass(str* const ps) { const str t = *ps; ps->info &= ~(size_t)1; return t; }`
Returns `(returned value, new value of *ps)`; `~(size_t)1 = 2^64 - 2`. -/
def str_pass (ps : str) : str × str :=
  (ps, ⟨ps.ptr, ps.info &&& (WORD - 2)⟩)

/-- `str str_ref_impl(const str s) { return (str){ s.ptr, s.info & ~(size_t)1 }; }` -/
def str_ref_impl (s : str) : str := ⟨s.ptr, s.info &&& (WORD - 2)⟩

/-- `#define str_lit(s) ((str){ "" s, str_ref_info(sizeof(s) - 1) })`.
`L` is the byte list of the literal (NUL excluded), so `sizeof = L.length + 1`;
`addr` is the address where the compiler places the literal's bytes. -/
def str_lit (addr : Nat) (L : List Nat) : str :=
  ⟨addr, str_ref_info (L.length + 1 - 1)⟩

/-! ### Bitwise helper lemmas

`info & ~(size_t)1` keeps all bits except the low one; on a value below
`2^64` it equals `2 * (info / 2)`. -/

theorem two_pow_sub_two_div_two : (2 ^ 64 - 2) / 2 = 2 ^ 63 - 1 := by
  norm_num

theorem land_mask_eq (n : Nat) (hn : n < WORD) :
    n &&& (WORD - 2) = 2 * (n / 2) := by
  apply Nat.eq_of_testBit_eq
  intro i
  rw [Nat.testBit_and]
  cases i with
  | zero =>
    simp [Nat.testBit_zero, Nat.mul_mod_right, WORD]
  | succ j =>
    rw [Nat.testBit_succ, Nat.testBit_succ, Nat.testBit_succ,
      Nat.mul_div_cancel_left _ (by norm_num : 0 < 2)]
    have hmask : (WORD - 2) / 2 = 2 ^ 63 - 1 := by
      simp [WORD]
    rw [hmask, Nat.testBit_two_pow_sub_one]
    by_cases hj : j < 63
    · simp [hj, Nat.testBit_div_two]
    · have h1 : n / 2 < 2 ^ j := by
        have : n / 2 < 2 ^ 63 := by
          have : n < 2 ^ 64 := hn
          omega
        have h2 : (2 : Nat) ^ 63 ≤ 2 ^ j := Nat.pow_le_pow_right (by norm_num) (by omega)
        omega
      simp [hj, Nat.testBit_lt_two_pow h1]

theorem land_mask_lt (n : Nat) (hn : n < WORD) : n &&& (WORD - 2) < WORD := by
  rw [land_mask_eq n hn]
  unfold WORD at *
  omega

theorem land_mask_shiftRight (n : Nat) (hn : n < WORD) :
    (n &&& (WORD - 2)) >>> 1 = n >>> 1 := by
  rw [land_mask_eq n hn, Nat.shiftRight_eq_div_pow, Nat.shiftRight_eq_div_pow]
  simp [Nat.mul_div_cancel_left]

theorem land_mask_even (n : Nat) (hn : n < WORD) :
    (n &&& (WORD - 2)) &&& 1 = 0 := by
  rw [land_mask_eq n hn, Nat.and_one_is_mod]
  omega

theorem land_mask_of_even (n : Nat) (hn : n < WORD) (h : n &&& 1 = 0) :
    n &&& (WORD - 2) = n := by
  rw [land_mask_eq n hn]
  rw [Nat.and_one_is_mod] at h
  omega

/-! ### Comparison (modelled from the spec: `str_cmp` lives in the missing `str.c`) -/

/-- Modelled from the spec: `str_cmp` (declared in the header, defined in the
missing `str.c`) is "lexicographic, byte-wise, returns
negative/zero/positive"; we model the result over byte lists as -1/0/1, with
the shorter string ordered first when one is a prefix of the other. -/
def str_cmp_bytes : List Nat → List Nat → Int
  | [], [] => 0
  | [], _ :: _ => -1
  | _ :: _, [] => 1
  | a :: as, b :: bs =>
    if a < b then -1 else if b < a then 1 else str_cmp_bytes as bs

/-- Modelled from the spec: `str_cmp` on String Values compares their byte
contents. -/
def str_cmp (mem : Nat → Nat) (s1 s2 : str) : Int :=
  str_cmp_bytes (str_content mem s1) (str_content mem s2)

/-- `bool str_eq(const str s1, const str s2) { return str_cmp(s1, s2) == 0; }` -/
def str_eq (mem : Nat → Nat) (s1 s2 : str) : Bool :=
  str_cmp mem s1 s2 == 0

theorem str_cmp_bytes_eq_zero_iff : ∀ a b : List Nat, str_cmp_bytes a b = 0 ↔ a = b := by
  intro a
  induction a with
  | nil => intro b; cases b <;> simp [str_cmp_bytes]
  | cons x xs ih =>
    intro b
    cases b with
    | nil => simp [str_cmp_bytes]
    | cons y ys =>
      simp only [str_cmp_bytes]
      split_ifs with h1 h2
      · constructor
        · intro h; norm_num at h
        · intro h; injection h with h3 h4; omega
      · constructor
        · intro h; norm_num at h
        · intro h; injection h with h3 h4; omega
      · have hxy : x = y := by omega
        rw [ih ys]
        subst hxy
        simp

theorem str_cmp_bytes_antisym : ∀ a b : List Nat,
    str_cmp_bytes a b = - str_cmp_bytes b a := by
  intro a
  induction a with
  | nil => intro b; cases b <;> simp [str_cmp_bytes]
  | cons x xs ih =>
    intro b
    cases b with
    | nil => simp [str_cmp_bytes]
    | cons y ys =>
      simp only [str_cmp_bytes]
      split_ifs <;> first | omega | exact ih ys

theorem str_cmp_bytes_trans : ∀ a b c : List Nat,
    str_cmp_bytes a b ≤ 0 → str_cmp_bytes b c ≤ 0 → str_cmp_bytes a c ≤ 0 := by
  intro a
  induction a with
  | nil =>
    intro b c h1 h2
    cases c <;> simp [str_cmp_bytes]
  | cons x xs ih =>
    intro b c h1 h2
    cases b with
    | nil => simp [str_cmp_bytes] at h1
    | cons y ys =>
      cases c with
      | nil => simp [str_cmp_bytes] at h2
      | cons z zs =>
        simp only [str_cmp_bytes] at h1 h2 ⊢
        split_ifs at h1 h2 ⊢ <;> first | omega | exact ih ys zs h1 h2

/-! ### Substring partitioning (modelled from the spec: `str_partition` lives
in the missing `str.c`) -/

/-- `begins_with p s` tests whether `p` is an initial run of `s` (helper for
the spec-modelled substring search below). -/
def begins_with : List Nat → List Nat → Bool
  | [], _ => true
  | _ :: _, [] => false
  | p :: ps, s :: ss => p == s && begins_with ps ss

/-- Modelled from the spec: the substring search inside `str_partition`
"finds the first occurrence of pattern in source"; returns the index of the
first match, if any. -/
def find_first (p : List Nat) : List Nat → Option Nat
  | [] => if begins_with p [] then some 0 else none
  | a :: t =>
    if begins_with p (a :: t) then some 0 else (find_first p t).map (· + 1)

/-- Modelled from the spec: `str_partition(src, patt, prefix, suffix)` finds
the first occurrence of `patt` in `src`; on success the out-parameters get
the portion before the match and the portion after it and the function
returns true; on no match it returns false and leaves the out-parameters
unchanged.  `pre0`/`suf0` are the out-parameters' prior contents. -/
def str_partition (src patt pre0 suf0 : List Nat) :
    Bool × List Nat × List Nat :=
  match find_first patt src with
  | some i => (true, src.take i, src.drop (i + patt.length))
  | none => (false, pre0, suf0)

theorem str_partition_eq_found (src patt pre0 suf0 : List Nat) (i : Nat)
    (hf : find_first patt src = some i) :
    str_partition src patt pre0 suf0 =
      (true, src.take i, src.drop (i + patt.length)) := by
  unfold str_partition
  rw [hf]

theorem str_partition_eq_missing (src patt pre0 suf0 : List Nat)
    (hf : find_first patt src = none) :
    str_partition src patt pre0 suf0 = (false, pre0, suf0) := by
  unfold str_partition
  rw [hf]

theorem begins_with_iff : ∀ p s : List Nat,
    begins_with p s = true ↔ ∃ t, p ++ t = s := by
  intro p
  induction p with
  | nil => intro s; simp [begins_with]
  | cons x xs ih =>
    intro s
    cases s with
    | nil => simp [begins_with]
    | cons y ys =>
      constructor
      · intro h
        simp only [begins_with, Bool.and_eq_true, beq_iff_eq] at h
        obtain ⟨hxy, hbw⟩ := h
        obtain ⟨t, ht⟩ := (ih ys).mp hbw
        exact ⟨t, by simp [hxy, ht]⟩
      · rintro ⟨t, ht⟩
        injection ht with h1 h2
        simp only [begins_with, h1, Bool.and_eq_true, beq_self_eq_true, true_and]
        exact (ih ys).mpr ⟨t, h2⟩

theorem find_first_reconstruct : ∀ (s p : List Nat) (i : Nat),
    find_first p s = some i →
    s.take i ++ p ++ s.drop (i + p.length) = s := by
  intro s
  induction s with
  | nil =>
    intro p i h
    unfold find_first at h
    split at h
    case isTrue hbw =>
      obtain ⟨r, hr⟩ := (begins_with_iff p []).mp hbw
      have hi : i = 0 := (Option.some.inj h).symm
      subst hi
      have hp : p = [] := by
        cases List.append_eq_nil.mp hr with
        | intro h1 h2 => exact h1
      simp [hp]
    case isFalse hbw => simp at h
  | cons a t ih =>
    intro p i h
    unfold find_first at h
    split at h
    case isTrue hbw =>
      obtain ⟨r, hr⟩ := (begins_with_iff p (a :: t)).mp hbw
      have hi : i = 0 := (Option.some.inj h).symm
      subst hi
      rw [← hr]
      simp [List.drop_left]
    case isFalse hbw =>
      rw [Option.map_eq_some'] at h
      obtain ⟨j, hj, hji⟩ := h
      subst hji
      have e : j + 1 + p.length = (j + p.length) + 1 := by omega
      rw [e]
      calc (a :: t).take (j + 1) ++ p ++ (a :: t).drop ((j + p.length) + 1)
          = a :: (t.take j ++ p ++ t.drop (j + p.length)) := by simp
        _ = a :: t := by rw [ih p j hj]

theorem find_first_min : ∀ (s p : List Nat) (i : Nat),
    find_first p s = some i →
    ∀ q r : List Nat, q ++ p ++ r = s → i ≤ q.length := by
  intro s
  induction s with
  | nil =>
    intro p i h q r hqr
    unfold find_first at h
    split at h
    case isTrue hbw =>
      have hi : i = 0 := (Option.some.inj h).symm
      omega
    case isFalse hbw => simp at h
  | cons a t ih =>
    intro p i h q r hqr
    unfold find_first at h
    split at h
    case isTrue hbw =>
      have hi : i = 0 := (Option.some.inj h).symm
      omega
    case isFalse hbw =>
      rw [Option.map_eq_some'] at h
      obtain ⟨j, hj, hji⟩ := h
      subst hji
      cases q with
      | nil =>
        exact absurd ((begins_with_iff p (a :: t)).mpr ⟨r, by simpa using hqr⟩) hbw
      | cons b q2 =>
        simp only [List.cons_append] at hqr
        injection hqr with h1 h2
        have := ih p j hj q2 r h2
        simp only [List.length_cons]
        omega

theorem find_first_none : ∀ (s p : List Nat),
    find_first p s = none → ∀ q r : List Nat, q ++ p ++ r ≠ s := by
  intro s
  induction s with
  | nil =>
    intro p h q r hqr
    unfold find_first at h
    split at h
    case isTrue hbw => simp at h
    case isFalse hbw =>
      have hlen := congrArg List.length hqr
      simp only [List.length_append, List.length_nil] at hlen
      have hp : p = [] := List.length_eq_zero.mp (by omega)
      exact hbw (by simp [hp, begins_with])
  | cons a t ih =>
    intro p h q r hqr
    unfold find_first at h
    split at h
    case isTrue hbw => simp at h
    case isFalse hbw =>
      rw [Option.map_eq_none'] at h
      cases q with
      | nil =>
        exact hbw ((begins_with_iff p (a :: t)).mpr ⟨r, by simpa using hqr⟩)
      | cons b q2 =>
        simp only [List.cons_append] at hqr
        injection hqr with h1 h2
        exact ih p h q2 r h2

/-! ### Codepoint iterator

Sentinel values come from the header (`(char32_t)-1` etc. as 32-bit
unsigned values); the decode step itself is in the missing `str.c` and is
modelled from the spec's decode collaborator. -/

/-- `#define CPI_END_OF_STRING ((char32_t)-1)` as a 32-bit unsigned value. -/
def CPI_END_OF_STRING : Nat := 2 ^ 32 - 1

/-- `#define CPI_ERR_INCOMPLETE_SEQ ((char32_t)-2)` as a 32-bit unsigned value. -/
def CPI_ERR_INCOMPLETE_SEQ : Nat := 2 ^ 32 - 2

/-- `#define CPI_ERR_INVALID_ENCODING ((char32_t)-3)` as a 32-bit unsigned value. -/
def CPI_ERR_INVALID_ENCODING : Nat := 2 ^ 32 - 3

/-- Result of decoding one codepoint from the front of a byte sequence. -/
inductive DecodeResult where
  | ok (cp : Nat) (consumed : Nat)
  | incomplete
  | invalid
  deriving Repr, DecidableEq

/-- Lower bound for the first continuation byte of a multi-byte sequence
led by `b0` (UTF-8 rejects overlong encodings). -/
def utf8_cont_lo (b0 : Nat) : Nat :=
  if b0 = 0xE0 then 0xA0 else if b0 = 0xF0 then 0x90 else 0x80

/-- Upper bound for the first continuation byte of a multi-byte sequence
led by `b0` (UTF-8 rejects surrogates and codepoints above 0x10FFFF). -/
def utf8_cont_hi (b0 : Nat) : Nat :=
  if b0 = 0xED then 0x9F else if b0 = 0xF4 then 0x8F else 0xBF

/-- Modelled from the spec: the decode collaborator
`decode_one(cursor, end) -> (codepoint, bytes_consumed) | incomplete | invalid`
used by `str_cp_iterator_next` (defined in the missing `str.c`): strict
UTF-8 decoding of one codepoint from the front of the byte sequence. -/
def utf8_decode_one : List Nat → DecodeResult
  | [] => .incomplete
  | b0 :: rest =>
    if b0 ≤ 0x7F then .ok b0 1
    else if b0 ≤ 0xC1 then .invalid
    else if b0 ≤ 0xDF then
      match rest with
      | [] => .incomplete
      | b1 :: _ =>
        if 0x80 ≤ b1 ∧ b1 ≤ 0xBF then .ok ((b0 - 0xC0) * 64 + (b1 - 0x80)) 2
        else .invalid
    else if b0 ≤ 0xEF then
      match rest with
      | [] => .incomplete
      | [b1] =>
        if utf8_cont_lo b0 ≤ b1 ∧ b1 ≤ utf8_cont_hi b0 then .incomplete
        else .invalid
      | b1 :: b2 :: _ =>
        if utf8_cont_lo b0 ≤ b1 ∧ b1 ≤ utf8_cont_hi b0 then
          if 0x80 ≤ b2 ∧ b2 ≤ 0xBF then
            .ok ((b0 - 0xE0) * 4096 + (b1 - 0x80) * 64 + (b2 - 0x80)) 3
          else .invalid
        else .invalid
    else if b0 ≤ 0xF4 then
      match rest with
      | [] => .incomplete
      | [b1] =>
        if utf8_cont_lo b0 ≤ b1 ∧ b1 ≤ utf8_cont_hi b0 then .incomplete
        else .invalid
      | [b1, b2] =>
        if (utf8_cont_lo b0 ≤ b1 ∧ b1 ≤ utf8_cont_hi b0) ∧ 0x80 ≤ b2 ∧ b2 ≤ 0xBF
        then .incomplete else .invalid
      | b1 :: b2 :: b3 :: _ =>
        if utf8_cont_lo b0 ≤ b1 ∧ b1 ≤ utf8_cont_hi b0 then
          if 0x80 ≤ b2 ∧ b2 ≤ 0xBF then
            if 0x80 ≤ b3 ∧ b3 ≤ 0xBF then
              .ok ((b0 - 0xF0) * 262144 + (b1 - 0x80) * 4096 +
                (b2 - 0x80) * 64 + (b3 - 0x80)) 4
            else .invalid
          else .invalid
        else .invalid
    else .invalid

/-- `str_make_cp_iterator(s)` starts the iterator at the string's bytes
(`curr = str_ptr(s)`, `end = str_end(s)`); the iterator state is the
remaining byte sequence. -/
def str_make_cp_iterator (mem : Nat → Nat) (s : str) : List Nat :=
  str_content mem s

/-- Modelled from the spec: `str_cp_iterator_next` (defined in the missing
`str.c`): on an exhausted cursor returns the end-of-string sentinel;
otherwise decodes one codepoint, advancing the cursor on success and
reporting the incomplete/invalid sentinels without advancing otherwise.
Returns `(codepoint-or-sentinel, new remaining bytes)`. -/
def str_cp_iterator_next (bytes : List Nat) : Nat × List Nat :=
  match bytes with
  | [] => (CPI_END_OF_STRING, [])
  | b0 :: rest =>
    match utf8_decode_one (b0 :: rest) with
    | .ok cp n => (cp, (b0 :: rest).drop n)
    | .incomplete => (CPI_ERR_INCOMPLETE_SEQ, b0 :: rest)
    | .invalid => (CPI_ERR_INVALID_ENCODING, b0 :: rest)

/-- The loop guard of the `for_each_cp` macro: continue while
`var <= 0x10FFFFu`. -/
def for_each_cp_guard (c : Nat) : Bool := decide (c ≤ 0x10FFFF)

theorem utf8_cont_lo_ge (b0 : Nat) : 0x80 ≤ utf8_cont_lo b0 := by
  unfold utf8_cont_lo
  split_ifs <;> norm_num

theorem utf8_cont_hi_le (b0 : Nat) : utf8_cont_hi b0 ≤ 0xBF := by
  unfold utf8_cont_hi
  split_ifs <;> norm_num

theorem utf8_decode_one_ok : ∀ (bs : List Nat) (cp n : Nat),
    utf8_decode_one bs = .ok cp n →
    cp ≤ 0x10FFFF ∧ 1 ≤ n ∧ n ≤ bs.length := by
  intro bs cp n h
  match bs with
  | [] => simp [utf8_decode_one] at h
  | b0 :: rest =>
    simp only [utf8_decode_one] at h
    split_ifs at h with h1 h2 h3 h4
    · injection h with hcp hn
      subst hcp
      subst hn
      simp only [List.length_cons]
      omega
    · split at h
      · simp at h
      · split_ifs at h with hc
        injection h with hcp hn
        subst hcp
        subst hn
        simp only [List.length_cons]
        omega
    · split at h
      · simp at h
      · split_ifs at h with hc
      · split_ifs at h with hc hc2
        · injection h with hcp hn
          subst hcp
          subst hn
          have hlo := utf8_cont_lo_ge b0
          have hhi := utf8_cont_hi_le b0
          simp only [List.length_cons]
          omega
    · split at h
      · simp at h
      · split_ifs at h with hc
      · split_ifs at h with hc
      · split_ifs at h with hc hc2 hc3
        injection h with hcp hn
        subst hcp
        subst hn
        have hlo := utf8_cont_lo_ge b0
        have hhi := utf8_cont_hi_le b0
        simp only [List.length_cons]
        constructor
        · by_cases hb : b0 = 0xF4
          · have : utf8_cont_hi b0 = 0x8F := by
              unfold utf8_cont_hi
              rw [if_neg (by omega), if_pos hb]
            omega
          · omega
        · omega

theorem cp_next_ok (b0 : Nat) (rest : List Nat) (cp n : Nat)
    (hd : utf8_decode_one (b0 :: rest) = .ok cp n) :
    str_cp_iterator_next (b0 :: rest) = (cp, (b0 :: rest).drop n) := by
  simp only [str_cp_iterator_next]
  rw [hd]

theorem cp_next_incomplete (b0 : Nat) (rest : List Nat)
    (hd : utf8_decode_one (b0 :: rest) = .incomplete) :
    str_cp_iterator_next (b0 :: rest) = (CPI_ERR_INCOMPLETE_SEQ, b0 :: rest) := by
  simp only [str_cp_iterator_next]
  rw [hd]

theorem cp_next_invalid (b0 : Nat) (rest : List Nat)
    (hd : utf8_decode_one (b0 :: rest) = .invalid) :
    str_cp_iterator_next (b0 :: rest) = (CPI_ERR_INVALID_ENCODING, b0 :: rest) := by
  simp only [str_cp_iterator_next]
  rw [hd]

theorem cp_next_cases (bytes : List Nat) :
    ((str_cp_iterator_next bytes).1 ≤ 0x10FFFF ∧
      (str_cp_iterator_next bytes).2.length < bytes.length) ∨
    (str_cp_iterator_next bytes).1 = CPI_END_OF_STRING ∨
    (str_cp_iterator_next bytes).1 = CPI_ERR_INCOMPLETE_SEQ ∨
    (str_cp_iterator_next bytes).1 = CPI_ERR_INVALID_ENCODING := by
  cases bytes with
  | nil => right; left; rfl
  | cons b0 rest =>
    cases hd : utf8_decode_one (b0 :: rest) with
    | ok cp n =>
      left
      obtain ⟨hcp, hn1, hn2⟩ := utf8_decode_one_ok (b0 :: rest) cp n hd
      rw [cp_next_ok b0 rest cp n hd]
      simp only [List.length_drop, List.length_cons]
      exact ⟨hcp, by omega⟩
    | incomplete =>
      right; right; left
      rw [cp_next_incomplete b0 rest hd]
    | invalid =>
      right; right; right
      rw [cp_next_invalid b0 rest hd]

/-! ### Claims about the ownership/movement operations -/

/-- Claim C3: `str_move(x)` returns exactly the prior value of `x` and resets
`x` to the null/empty value (length 0, non-owning), transferring any ownership
to the returned value; a subsequent release of `x` is a no-op, and `str_move`
itself never fails (it is a total function). -/
theorem claim_C3_move (x : str) :
    (str_move x).1 = x ∧ (str_move x).2 = str_null ∧
    str_len (str_move x).2 = 0 ∧ str_is_owner (str_move x).2 = false ∧
    ∀ heap : List Nat, str_free (str_move x).2 heap = heap := by
  refine ⟨rfl, rfl, ?_, ?_, fun heap => ?_⟩
  · show str_len str_null = 0
    decide
  · show str_is_owner str_null = false
    decide
  · simp [str_move, str_free, str_is_owner, str_null]

/-- Claim C6: the literal constructor `str_lit` produces a value that is never
owning and whose length is the byte count of the literal excluding the
terminating NUL (`sizeof(L) - 1 = L.length`), with no allocation (it only
builds the two-word struct). -/
theorem claim_C6_lit (addr : Nat) (L : List Nat) (hL : L.length < 2 ^ 63) :
    str_is_owner (str_lit addr L) = false ∧
    str_len (str_lit addr L) = L.length := by
  have h1 : (str_lit addr L).info = 2 * L.length := by
    show ((L.length + 1 - 1) <<< 1) % WORD = 2 * L.length
    rw [Nat.shiftLeft_eq, Nat.mod_eq_of_lt]
    · ring_nf
      omega
    · unfold WORD
      have : (2 : Nat) ^ 1 = 2 := by norm_num
      rw [this]
      omega
  constructor
  · simp [str_is_owner, h1, Nat.and_one_is_mod, Nat.mul_mod_right]
  · simp [str_len, h1, Nat.shiftRight_eq_div_pow]

/-- Witness for C6 at the two-byte literal "Hi" placed at address 100. -/
theorem claim_C6_lit_witness :
    ([72, 105] : List Nat).length < 2 ^ 63 ∧
    str_is_owner (str_lit 100 [72, 105]) = false ∧
    str_len (str_lit 100 [72, 105]) = 2 := by
  have h := claim_C6_lit 100 [72, 105] (by norm_num)
  exact ⟨by norm_num, h.1, h.2⟩

/-- Claim C9: `str_ref_impl` changes only the ownership discriminant: the
result is non-owning while its pointer and length are identical to the
input's (clearing the low bit of the packed info word leaves `info >> 1`
unchanged). -/
theorem claim_C9_ref_impl (s : str) (hs : s.info < WORD) :
    str_is_owner (str_ref_impl s) = false ∧
    (str_ref_impl s).ptr = s.ptr ∧
    str_len (str_ref_impl s) = str_len s := by
  refine ⟨?_, rfl, ?_⟩
  · simp [str_is_owner, str_ref_impl, land_mask_even s.info hs]
  · simp [str_len, str_ref_impl, land_mask_shiftRight s.info hs]

/-- Witness for C9 at the owning value `⟨5, 7⟩` (pointer 5, length 3, owner). -/
theorem claim_C9_ref_impl_witness :
    ((⟨5, 7⟩ : str)).info < WORD ∧
    str_is_owner (str_ref_impl ⟨5, 7⟩) = false ∧
    (str_ref_impl ⟨5, 7⟩).ptr = 5 ∧
    str_len (str_ref_impl ⟨5, 7⟩) = str_len ⟨5, 7⟩ := by
  have h := claim_C9_ref_impl ⟨5, 7⟩ (by norm_num [WORD])
  exact ⟨by norm_num [WORD], h.1, h.2.1, h.2.2⟩

/-- Claim C10: on a non-owning value `str_pass` is the identity (returns the
value unchanged and leaves the variable unchanged), and applying `str_pass`
twice leaves the variable in the same state as after the first application
and returns that same state: demotion to a reference is idempotent. -/
theorem claim_C10_pass_idempotent (x : str) (hx : x.info < WORD) :
    (str_is_ref x = true → str_pass x = (x, x)) ∧
    str_pass ((str_pass x).2) = ((str_pass x).2, (str_pass x).2) := by
  constructor
  · intro h
    have h0 : x.info &&& 1 = 0 := by
      simp [str_is_ref, str_is_owner] at h
      rw [Nat.and_one_is_mod]
      exact h
    unfold str_pass
    rw [land_mask_of_even x.info hx h0]
  · have h1 := land_mask_of_even (x.info &&& (WORD - 2))
      (land_mask_lt x.info hx) (land_mask_even x.info hx)
    simp only [str_pass]
    rw [h1]

/-- Witness for C10 at the reference value `⟨5, 6⟩` (pointer 5, length 3,
non-owning). -/
theorem claim_C10_pass_idempotent_witness :
    ((⟨5, 6⟩ : str)).info < WORD ∧ str_is_ref ⟨5, 6⟩ = true ∧
    str_pass ⟨5, 6⟩ = (⟨5, 6⟩, ⟨5, 6⟩) ∧
    str_pass ((str_pass ⟨5, 6⟩).2) = ((str_pass ⟨5, 6⟩).2, (str_pass ⟨5, 6⟩).2) := by
  have h := claim_C10_pass_idempotent ⟨5, 6⟩ (by norm_num [WORD])
  exact ⟨by norm_num [WORD], by decide, h.1 (by decide), h.2⟩

/-- Claim C2 fails as stated: `str_pass` copies the value *before* clearing
the ownership bit, so the returned value keeps the ownership bit when the
variable was owning.  At the owning input `⟨5, 7⟩` the returned value is
still owning, contradicting "the returned value is non-owning". -/
theorem claim_C2_counterexample :
    ¬ (str_is_owner (str_pass ⟨5, 7⟩).1 = false) := by
  decide

/-- Claim C2 (amended): `str_pass(x)` returns the current value *unchanged*
(ownership bit included, so ownership passes to the returned value), and
leaves `x` referencing the same bytes (same pointer, same length)
non-owningly; releasing the variable afterwards is a no-op, so releasing both
the returned value and the variable frees no buffer twice. -/
theorem claim_C2_pass_amended (x : str) (hx : x.info < WORD) :
    (str_pass x).1 = x ∧
    (str_pass x).2.ptr = x.ptr ∧
    str_len (str_pass x).2 = str_len x ∧
    str_is_owner (str_pass x).2 = false ∧
    ∀ heap : List Nat, str_free (str_pass x).2 heap = heap := by
  have howner : str_is_owner (str_pass x).2 = false := by
    simp [str_is_owner, str_pass, land_mask_even x.info hx]
  refine ⟨rfl, rfl, ?_, howner, fun heap => ?_⟩
  · simp [str_len, str_pass, land_mask_shiftRight x.info hx]
  · simp [str_free, howner]

/-- Witness for the amended C2 at the owning value `⟨5, 7⟩` with one
allocated block at address 5. -/
theorem claim_C2_pass_amended_witness :
    ((⟨5, 7⟩ : str)).info < WORD ∧
    (str_pass ⟨5, 7⟩).1 = ⟨5, 7⟩ ∧
    str_is_owner (str_pass ⟨5, 7⟩).2 = false ∧
    str_free (str_pass ⟨5, 7⟩).2 [5] = [5] := by
  have h := claim_C2_pass_amended ⟨5, 7⟩ (by norm_num [WORD])
  exact ⟨by norm_num [WORD], h.1, h.2.2.2.1, h.2.2.2.2 [5]⟩

/-- Claim C1 fails as stated: `str_assign` is `str_free(*ps); *ps = s;` with
no aliasing guard.  With dest the owning value `⟨5, 7⟩` over the single
allocated block 5 and `new_value` equal to dest's current content, after the
call dest is still owning pointer 5 but block 5 has been freed: dest holds a
freed buffer, not valid bytes. -/
theorem claim_C1_counterexample :
    ¬ (str_is_owner (str_assign ⟨5, 7⟩ [5] ⟨5, 7⟩).1 = false ∨
       (str_assign ⟨5, 7⟩ [5] ⟨5, 7⟩).1.ptr ∈ (str_assign ⟨5, 7⟩ [5] ⟨5, 7⟩).2) := by
  decide

/-- Claim C1 (amended): `str_assign(dest, new_value)` releases dest's current
content when dest is owning and then stores `new_value`; it does *not* guard
against aliasing: when dest is owning and `new_value`'s pointer equals dest's
owned pointer, after the call dest holds a freed buffer.  When dest is
non-owning the allocator state is untouched (so the pass/move idioms that
first clear dest's ownership are safe). -/
theorem claim_C1_assign_amended (d s : str) (heap : List Nat) (hnd : heap.Nodup) :
    str_assign d heap s = (s, str_free d heap) ∧
    (str_is_owner d = true → s.ptr = d.ptr →
      (str_assign d heap s).1.ptr ∉ (str_assign d heap s).2) ∧
    (str_is_owner d = false → (str_assign d heap s).2 = heap) := by
  refine ⟨rfl, ?_, ?_⟩
  · intro hown hptr
    simp only [str_assign, str_free, hown, if_true]
    rw [hptr]
    exact hnd.not_mem_erase
  · intro href
    simp [str_assign, str_free, href]

/-- Witness for the amended C1 at the aliasing input: dest `⟨5, 7⟩` (owning
block 5), heap `[5]`, new value equal to dest. -/
theorem claim_C1_assign_amended_witness :
    ([5] : List Nat).Nodup ∧ str_is_owner (⟨5, 7⟩ : str) = true ∧
    (str_assign ⟨5, 7⟩ [5] ⟨5, 7⟩).1.ptr ∉ (str_assign ⟨5, 7⟩ [5] ⟨5, 7⟩).2 := by
  refine ⟨by decide, by decide, ?_⟩
  exact (claim_C1_assign_amended ⟨5, 7⟩ ⟨5, 7⟩ [5] (by decide)).2.1 (by decide) rfl

/-- Claim C4: a String Value of length 0 has the empty logical content
regardless of its pointer field, and `str_ptr` never yields null: when the
stored pointer is null it returns the canonical shared empty-string
constant. -/
theorem claim_C4_empty (s : str) (mem : Nat → Nat) :
    (str_len s = 0 → str_content mem s = []) ∧
    str_ptr s ≠ 0 ∧
    (s.ptr = 0 → str_ptr s = str_empty_string) := by
  refine ⟨?_, ?_, ?_⟩
  · intro h
    simp [str_content, h]
  · unfold str_ptr
    split <;> simp_all [str_empty_string]
  · intro h
    simp [str_ptr, h]

/-- Witness for C4 at the null value and the all-zero memory. -/
theorem claim_C4_empty_witness :
    str_len str_null = 0 ∧ str_content (fun _ => 0) str_null = [] ∧
    str_ptr str_null ≠ 0 ∧ str_null.ptr = 0 ∧
    str_ptr str_null = str_empty_string := by
  have h := claim_C4_empty str_null (fun _ => 0)
  exact ⟨rfl, h.1 rfl, h.2.1, rfl, h.2.2 rfl⟩

/-- Claim C5: `str_eq` holds exactly when `str_cmp` is zero, comparison is
zero exactly on equal byte content, and the comparison is antisymmetric
(`cmp a b = -(cmp b a)`) and transitive, a total order over byte
sequences. -/
theorem claim_C5_cmp_order (mem : Nat → Nat) (s1 s2 : str) (a b c : List Nat) :
    (str_eq mem s1 s2 = true ↔ str_cmp mem s1 s2 = 0) ∧
    (str_cmp mem s1 s2 = 0 ↔ str_content mem s1 = str_content mem s2) ∧
    (str_cmp_bytes a b = 0 ↔ a = b) ∧
    str_cmp_bytes a b = - str_cmp_bytes b a ∧
    (str_cmp_bytes a b ≤ 0 → str_cmp_bytes b c ≤ 0 → str_cmp_bytes a c ≤ 0) := by
  refine ⟨?_, ?_, str_cmp_bytes_eq_zero_iff a b, str_cmp_bytes_antisym a b,
    str_cmp_bytes_trans a b c⟩
  · simp [str_eq]
  · exact str_cmp_bytes_eq_zero_iff _ _

/-- Witness for C5: transitivity applied at the concrete byte lists
`[1] ≤ [2] ≤ [3]`. -/
theorem claim_C5_cmp_order_witness :
    str_cmp_bytes [1] [2] ≤ 0 ∧ str_cmp_bytes [2] [3] ≤ 0 ∧
    str_cmp_bytes [1] [3] ≤ 0 := by
  refine ⟨by decide, by decide, ?_⟩
  exact (claim_C5_cmp_order (fun _ => 0) str_null str_null [1] [2] [3]).2.2.2.2
    (by decide) (by decide)

/-- Claim C8: if `str_partition` succeeds, concatenating the produced parts
with the pattern re-inserted between them reconstructs the source exactly,
and the produced part before the match is the shortest possible (so the
match is the first occurrence); on no match it returns failure and leaves
the out-parameters unchanged (and indeed no occurrence exists in the
source). -/
theorem claim_C8_partition (src patt pre0 suf0 : List Nat)
    (ok : Bool) (pre suf : List Nat)
    (h : str_partition src patt pre0 suf0 = (ok, pre, suf)) :
    (ok = true → pre ++ patt ++ suf = src ∧
      ∀ q r : List Nat, q ++ patt ++ r = src → pre.length ≤ q.length) ∧
    (ok = false → pre = pre0 ∧ suf = suf0 ∧
      ∀ q r : List Nat, q ++ patt ++ r ≠ src) := by
  cases hf : find_first patt src with
  | some i =>
    rw [str_partition_eq_found src patt pre0 suf0 i hf] at h
    injection h with e1 e23
    injection e23 with e2 e3
    subst e1
    subst e2
    subst e3
    constructor
    · intro _
      refine ⟨find_first_reconstruct src patt i hf, fun q r hqr => ?_⟩
      have hle := find_first_min src patt i hf q r hqr
      simp only [List.length_take]
      omega
    · intro hfalse
      simp at hfalse
  | none =>
    rw [str_partition_eq_missing src patt pre0 suf0 hf] at h
    injection h with e1 e23
    injection e23 with e2 e3
    subst e1
    subst e2
    subst e3
    constructor
    · intro htrue
      simp at htrue
    · intro _
      exact ⟨rfl, rfl, find_first_none src patt hf⟩

/-- Witness for C8: a successful partition of `[1,2,3]` around `[2]` and a
failed partition of the same source around the absent pattern `[7]`. -/
theorem claim_C8_partition_witness :
    str_partition [1, 2, 3] [2] [9] [8] = (true, [1], [3]) ∧
    [1] ++ [2] ++ [3] = [1, 2, 3] ∧
    str_partition [1, 2, 3] [7] [9] [8] = (false, [9], [8]) ∧
    ∀ q r : List Nat, q ++ [7] ++ r ≠ [1, 2, 3] := by
  have e1 : str_partition [1, 2, 3] [2] [9] [8] = (true, [1], [3]) := by decide
  have e2 : str_partition [1, 2, 3] [7] [9] [8] = (false, [9], [8]) := by decide
  refine ⟨e1, ?_, e2, ?_⟩
  · exact ((claim_C8_partition [1, 2, 3] [2] [9] [8] true [1] [3] e1).1 rfl).1
  · exact ((claim_C8_partition [1, 2, 3] [7] [9] [8] false [9] [8] e2).2 rfl).2.2

/-- Claim C7: each call of the codepoint iterator's next operation returns
either a code point in [0, 0x10FFFF] or one of three pairwise distinct
sentinels (end-of-string, incomplete multi-byte sequence, invalid encoding);
the `for_each_cp` loop guard `var <= 0x10FFFFu` holds exactly when no
sentinel was returned, and on success the iterator consumed at least one
byte, so the loop terminates. -/
theorem claim_C7_cp_iterator (bytes : List Nat) :
    ((str_cp_iterator_next bytes).1 ≤ 0x10FFFF ∨
      (str_cp_iterator_next bytes).1 = CPI_END_OF_STRING ∨
      (str_cp_iterator_next bytes).1 = CPI_ERR_INCOMPLETE_SEQ ∨
      (str_cp_iterator_next bytes).1 = CPI_ERR_INVALID_ENCODING) ∧
    (CPI_END_OF_STRING ≠ CPI_ERR_INCOMPLETE_SEQ ∧
      CPI_END_OF_STRING ≠ CPI_ERR_INVALID_ENCODING ∧
      CPI_ERR_INCOMPLETE_SEQ ≠ CPI_ERR_INVALID_ENCODING) ∧
    (for_each_cp_guard (str_cp_iterator_next bytes).1 = true ↔
      ((str_cp_iterator_next bytes).1 ≠ CPI_END_OF_STRING ∧
        (str_cp_iterator_next bytes).1 ≠ CPI_ERR_INCOMPLETE_SEQ ∧
        (str_cp_iterator_next bytes).1 ≠ CPI_ERR_INVALID_ENCODING)) ∧
    ((str_cp_iterator_next bytes).1 ≤ 0x10FFFF →
      (str_cp_iterator_next bytes).2.length < bytes.length) := by
  have hcases := cp_next_cases bytes
  have hguard : for_each_cp_guard (str_cp_iterator_next bytes).1 = true ↔
      (str_cp_iterator_next bytes).1 ≤ 0x10FFFF := by
    simp [for_each_cp_guard]
  refine ⟨?_, ?_, ?_, ?_⟩
  · rcases hcases with ⟨hle, _⟩ | hs
    · exact Or.inl hle
    · exact Or.inr hs
  · refine ⟨?_, ?_, ?_⟩ <;> simp [CPI_END_OF_STRING, CPI_ERR_INCOMPLETE_SEQ,
      CPI_ERR_INVALID_ENCODING]
  · rw [hguard]
    constructor
    · intro hle
      refine ⟨?_, ?_, ?_⟩ <;> intro he <;> rw [he] at hle <;>
        simp [CPI_END_OF_STRING, CPI_ERR_INCOMPLETE_SEQ,
          CPI_ERR_INVALID_ENCODING] at hle
    · intro ⟨h1, h2, h3⟩
      rcases hcases with ⟨hle, _⟩ | he | he | he
      · exact hle
      · exact absurd he h1
      · exact absurd he h2
      · exact absurd he h3
  · intro hle
    rcases hcases with ⟨_, hprog⟩ | he | he | he
    · exact hprog
    all_goals rw [he] at hle
    all_goals simp [CPI_END_OF_STRING, CPI_ERR_INCOMPLETE_SEQ,
      CPI_ERR_INVALID_ENCODING] at hle

/-- Witness for C7 at the single ASCII byte 0x41: the call succeeds (the
guard holds) and the iterator consumed the byte. -/
theorem claim_C7_cp_iterator_witness :
    (str_cp_iterator_next [0x41]).1 ≤ 0x10FFFF ∧
    (str_cp_iterator_next [0x41]).2.length < ([0x41] : List Nat).length := by
  refine ⟨by decide, ?_⟩
  exact (claim_C7_cp_iterator [0x41]).2.2.2 (by decide)

end StrLib
